import Mathlib

/-!
Shallow embedding of the Mercury investor-database crawler
(`mercury_crawler.py`) and proofs about its specification claims.

Markup trees rendered by the browser layer are modelled as a rose tree
(`Node`); BeautifulSoup traversals (`find_all`, `find_next`,
`find_next_sibling`, `.parent`) are modelled by structurally recursive
functions over that tree.  Python strings are modelled as Lean `String`
(a wrapper around `List Char`), and the handful of Python string methods
the crawler uses (`strip`, `lower`, `title`, `replace`, `split`,
membership tests) are defined below, character by character.
-/

namespace Mercury

/-! ## Python string primitives -/

/-- Characters treated as whitespace by Python `str.strip()`. -/
def pySpace (c : Char) : Bool :=
  c = ' ' || c = '\t' || c = '\n' || c = '\r' || c = '\x0b' || c = '\x0c'

/-- `str.strip()` on a character list: drop whitespace from both ends. -/
def pyStripChars (l : List Char) : List Char :=
  ((l.dropWhile pySpace).reverse.dropWhile pySpace).reverse

/-- Python `s.strip()`. -/
def pyStrip (s : String) : String := ⟨pyStripChars s.data⟩

/-- Python `s.lower()` (the crawler only feeds it ASCII data). -/
def pyLower (s : String) : String := ⟨s.data.map Char.toLower⟩

/-- Is `pre` a prefix of `l`? -/
def prefixChars : List Char → List Char → Bool
  | [], _ => true
  | _ :: _, [] => false
  | a :: as, b :: bs => a = b && prefixChars as bs

/-- Does `needle` occur as a contiguous substring of `hay`?
Models the Python test `needle in hay`. -/
def subChars (needle : List Char) : List Char → Bool
  | [] => prefixChars needle []
  | c :: cs => prefixChars needle (c :: cs) || subChars needle cs

/-- Python `needle in hay` on strings. -/
def strContains (hay needle : String) : Bool := subChars needle.data hay.data

/-- Python `s.startswith(p)`. -/
def pyStartsWith (s p : String) : Bool := prefixChars p.data s.data

/-- The character list of the literal `"mailto:"`. -/
def mailtoChars : List Char := ['m', 'a', 'i', 'l', 't', 'o', ':']

/-- Worker for `href.replace("mailto:", "")`: removes every occurrence of
`mailto:`, scanning left to right.  The fuel argument starts at the length
of the list and strictly dominates it throughout, so the `0, l` branch with
`l` nonempty is unreachable; fuel makes the recursion structural. -/
def stripMailtoAux : Nat → List Char → List Char
  | _, [] => []
  | 0, l => l
  | fuel + 1, c :: cs =>
      if prefixChars mailtoChars (c :: cs) then stripMailtoAux fuel (cs.drop 6)
      else c :: stripMailtoAux fuel cs

/-- Python `href.replace("mailto:", "")`. -/
def stripMailto (s : String) : String := ⟨stripMailtoAux s.data.length s.data⟩

/-- The delimiter class of `re.split(r'[,;•·\n]', text)`. -/
def isDelim (c : Char) : Bool :=
  c = ',' || c = ';' || c = '•' || c = '·' || c = '\n'

/-- `re.split` over a single-character class: cut the list at every
delimiter occurrence.  Always returns a nonempty list of pieces. -/
def splitDelims : List Char → List (List Char)
  | [] => [[]]
  | c :: cs =>
      if isDelim c then [] :: splitDelims cs
      else
        match splitDelims cs with
        | [] => [[c]]
        | p :: ps => (c :: p) :: ps

/-- Split at every occurrence of one fixed character (Python `s.split(d)`). -/
def splitOnChar (d : Char) : List Char → List (List Char)
  | [] => [[]]
  | c :: cs =>
      if c = d then [] :: splitOnChar d cs
      else
        match splitOnChar d cs with
        | [] => [[c]]
        | p :: ps => (c :: p) :: ps

/-- Python `s.title()`: uppercase each letter that follows a non-letter,
lowercase every other letter.  The flag records whether the previous
character was a letter. -/
def pyTitleAux : Bool → List Char → List Char
  | _, [] => []
  | prev, c :: cs =>
      if c.isAlpha then
        (if prev then c.toLower else c.toUpper) :: pyTitleAux true cs
      else c :: pyTitleAux false cs

/-- Python `s.title()`. -/
def pyTitle (s : String) : String := ⟨pyTitleAux false s.data⟩

/-- Python `s.replace('-', ' ')` (single-character pattern). -/
def replaceDash (s : String) : String :=
  ⟨s.data.map fun c => if c = '-' then ' ' else c⟩

/-! ## Markup trees

A rendered page is a forest of nodes: element nodes carry a tag name, the
class list, the remaining attributes and a child forest; text nodes carry a
string (a BeautifulSoup `NavigableString`). -/

inductive Node where
  | elem (tag : String) (classes : List String) (attrs : List (String × String)) (children : List Node)
  | text (s : String)

/-- The `href` attribute of an element, when present. -/
def attrsHref (attrs : List (String × String)) : Option String := attrs.lookup "href"

mutual

/-- BeautifulSoup `node.get_text()`: concatenation of every descendant
string, in document order. -/
def nodeTextRaw : (n : Node) → String
  | .text s => s
  | .elem _ _ _ cs => forestTextRaw cs
termination_by structural n => n

def forestTextRaw : (ns : List Node) → String
  | [] => ""
  | n :: rest => nodeTextRaw n ++ forestTextRaw rest
termination_by structural ns => ns

end

mutual

/-- BeautifulSoup `node.get_text(strip=True)`: concatenation of every
descendant string with each string stripped individually. -/
def nodeTextStrip : (n : Node) → String
  | .text s => pyStrip s
  | .elem _ _ _ cs => forestTextStrip cs
termination_by structural n => n

def forestTextStrip : (ns : List Node) → String
  | [] => ""
  | n :: rest => nodeTextStrip n ++ forestTextStrip rest
termination_by structural ns => ns

end

/-- An element located inside a document, carrying enough of its
surroundings to interpret the BeautifulSoup navigation the crawler uses:
`sibsAfter` are the following siblings, `nextForest` is the forest whose
preorder is exactly the document order after the element itself
(`next_elements`: first its children, then following siblings, then the
rest of the document), and `parentNext` is the same forest for its parent. -/
structure LocElem where
  tag : String
  classes : List String
  attrs : List (String × String)
  children : List Node
  sibsAfter : List Node
  nextForest : List Node
  parentNext : List Node

mutual

/-- Locate every element of a document in preorder (the order of
BeautifulSoup `find_all`).  `cont` is the forest that follows the current
sibling run in document order; `pnext` is the `next_elements` forest of the
current parent. -/
def locNode : (n : Node) → List Node → List Node → List Node → List LocElem
  | .text _, _, _, _ => []
  | .elem t c a cs, rest, cont, pnext =>
      { tag := t, classes := c, attrs := a, children := cs,
        sibsAfter := rest, nextForest := cs ++ (rest ++ cont), parentNext := pnext }
        :: locForest cs (rest ++ cont) (cs ++ (rest ++ cont))
termination_by structural n => n

def locForest : (ns : List Node) → List Node → List Node → List LocElem
  | [], _, _ => []
  | n :: rest, cont, pnext => locNode n rest cont pnext ++ locForest rest cont pnext
termination_by structural ns => ns

end

/-- All elements of a document (a top-level forest) in document order.
The parent of a top-level node is the BeautifulSoup document object, whose
`next_elements` run through the whole document. -/
def locateElems (doc : List Node) : List LocElem := locForest doc [] doc

mutual

/-- BeautifulSoup `find_next(tags)` over a forest: the first element in
preorder whose tag is listed. -/
def nodeFindTag (tags : List String) : (n : Node) → Option Node
  | .text _ => none
  | .elem t c a cs =>
      if tags.contains t then some (.elem t c a cs) else forestFindTag tags cs
termination_by structural n => n

def forestFindTag (tags : List String) : (ns : List Node) → Option Node
  | [] => none
  | n :: rest =>
      match nodeFindTag tags n with
      | some e => some e
      | none => forestFindTag tags rest
termination_by structural ns => ns

end

/-- BeautifulSoup `find_next_sibling(tag)`: scan the following siblings
(top level only) for the first element with the given tag. -/
def findSiblingTag (tag : String) : List Node → Option Node
  | [] => none
  | .text _ :: rest => findSiblingTag tag rest
  | .elem t c a cs :: rest =>
      if t = tag then some (.elem t c a cs) else findSiblingTag tag rest

mutual

/-- Every descendant string of a node, paired with the child forest of its
parent element, in document order.  A `none` parent marks a string whose
parent is the enclosing context (filled in by the caller one level up, or
left as the document itself at top level).  Since a BeautifulSoup tag's
`get_text` only depends on its descendants, the parent's child forest is
all the crawler ever reads from a parent.  Models `soup.find_all(text=...)`
followed by `.parent`. -/
def nodeTexts : (n : Node) → List (String × Option (List Node))
  | .text s => [(s, none)]
  | .elem _ _ _ cs =>
      (forestTexts cs).map fun p => (p.1, some (p.2.getD cs))
termination_by structural n => n

def forestTexts : (ns : List Node) → List (String × Option (List Node))
  | [] => []
  | n :: rest => nodeTexts n ++ forestTexts rest
termination_by structural ns => ns

end

/-- Descendant strings with parents for a whole document (`none` parent =
the document object). -/
def docTextsWithParent (doc : List Node) : List (String × Option (List Node)) :=
  forestTexts doc

mutual

/-- BeautifulSoup `.string` of a tag: the single string child, descending
through a single element child; `none` when the child count differs
from one. -/
def nodeString : (n : Node) → Option String
  | .text s => some s
  | .elem _ _ _ cs => childString cs
termination_by structural n => n

def childString : (ns : List Node) → Option String
  | [n] => nodeString n
  | _ => none
termination_by structural ns => ns

end

/-! ## Anchors -/

/-- An anchor element, reduced to what the crawler reads from it:
its target and its display text (`get_text()` raw and stripped). -/
structure Anchor where
  href : String
  rawText : String
  stripText : String

/-- `soup.find_all('a', href=True)` over a forest: every `a` element with
an `href` attribute, in document order. -/
def anchorsOfForest (ns : List Node) : List Anchor :=
  (locForest ns [] []).filterMap fun e =>
    if e.tag = "a" then
      (attrsHref e.attrs).map fun h =>
        { href := h, rawText := forestTextRaw e.children,
          stripText := forestTextStrip e.children }
    else none

/-- Anchors among the descendants of one node (`tag.find_all('a', href=True)`). -/
def anchorsInNode : Node → List Anchor
  | .text _ => []
  | .elem _ _ _ cs => anchorsOfForest cs

/-! ## The crawler: field parsers -/

/-- `MercuryCrawler.base_url`. -/
def base_url : String := "https://mercury.com"

/-- `urljoin(self.base_url, href)` for an `href` starting with `/`: the
base has no path component, so a path-absolute reference resolves to
scheme-and-host followed by the path.  (A network-path reference `//host/p`
would resolve differently; the directory markup carries only path-absolute
and absolute targets, which this models exactly.) -/
def urljoinBase (href : String) : String := base_url ++ href

/-- `MercuryCrawler._parse_list_field`: split on the delimiter class,
strip each piece, keep the pieces that are nonempty and longer than one
character, in split order. -/
def _parse_list_field (text : String) : List String :=
  if text = "" then []
  else
    (((splitDelims text.data).map pyStripChars).filter fun p =>
        decide (p ≠ []) && decide (1 < p.length)).map String.mk

/-- `MercuryCrawler._get_name_from_url`:
`url.split('/')[-1].replace('-', ' ').title()`. -/
def _get_name_from_url (url : String) : String :=
  pyTitle (replaceDash ⟨((splitOnChar '/' url.data).getLast?).getD []⟩)

/-! ## The crawler: field locator -/

/-- The headings carrying the structural marker class:
`soup.find_all('h3', class_='arcadia-heading-9')`. -/
def headings9 (doc : List Node) : List LocElem :=
  (locateElems doc).filter fun e =>
    e.tag = "h3" && e.classes.contains "arcadia-heading-9"

/-- Does a located heading match a field label?
`h3.get_text().strip().lower() == field_name.lower()`. -/
def headingMatches (e : LocElem) (field : String) : Bool :=
  pyLower (pyStrip (forestTextRaw e.children)) = pyLower field

/-- The content lookup `_extract_structured_field` performs at one matching
heading: the next sibling `p`, or else the first `p` among the parent's
`next_elements`; `none` lets the loop move on to the next matching heading. -/
def structuredContentAt (e : LocElem) : Option String :=
  match findSiblingTag "p" e.sibsAfter with
  | some p => some (nodeTextStrip p)
  | none => (forestFindTag ["p"] e.parentNext).map nodeTextStrip

/-- `MercuryCrawler._extract_structured_field`. -/
def _extract_structured_field (doc : List Node) (field : String) : String :=
  (((headings9 doc).filter fun e => headingMatches e field).findSome?
    structuredContentAt).getD ""

/-- `MercuryCrawler._extract_industries`: at the first heading reading
`industries`, descend into the next `div` (document order) and collect the
stripped display text of every contained link whose target carries an
`industries=` filter, deduplicated by exact text, in document order. -/
def _extract_industries (doc : List Node) : List String :=
  match (headings9 doc).find? fun e => headingMatches e "Industries" with
  | none => []
  | some e =>
      match forestFindTag ["div"] e.nextForest with
      | none => []
      | some d =>
          (anchorsInNode d).foldl
            (fun acc a =>
              if strContains a.href "industries=" then
                if a.stripText ≠ "" && !acc.contains a.stripText then
                  acc ++ [a.stripText]
                else acc
              else acc)
            []

/-- Python dict assignment `d[k] = v` on an insertion-ordered mapping:
overwrite in place when the key exists, append otherwise. -/
def dictInsert : List (String × String) → String → String → List (String × String)
  | [], k, v => [(k, v)]
  | (k0, v0) :: rest, k, v =>
      if k0 = k then (k0, v) :: rest else (k0, v0) :: dictInsert rest k v

/-- `MercuryCrawler._extract_contact_info`: at the first heading whose text
contains `contact links`, descend into the next `div` and record each
contained link as display-text key and target value, skipping keys shorter
than two characters and stripping a `mailto:` prefix off targets. -/
def _extract_contact_info (doc : List Node) : List (String × String) :=
  match (headings9 doc).find? fun e =>
      strContains (pyLower (pyStrip (forestTextRaw e.children))) "contact links" with
  | none => []
  | some e =>
      match forestFindTag ["div"] e.nextForest with
      | none => []
      | some d =>
          (anchorsInNode d).foldl
            (fun acc a =>
              if a.stripText = "" || (pyStrip a.stripText).length < 2 then acc
              else
                dictInsert acc (pyStrip a.stripText)
                  (if strContains a.href "mailto:" then stripMailto a.href
                   else a.href))
            []

/-! ## The crawler: name extraction -/

/-- `_extract_text(soup, ['h1'])`: the stripped text of the first `h1`. -/
def extractTextH1 (doc : List Node) : String :=
  match (locateElems doc).find? (fun e => e.tag = "h1") with
  | some e => forestTextStrip e.children
  | none => ""

/-- `_extract_text(soup, ['[data-cy="investor-name"]', '.name'])`: try the
attribute selector, then the class selector; first element found wins. -/
def extractTextNameSelectors (doc : List Node) : String :=
  match (locateElems doc).find? (fun e => e.attrs.lookup "data-cy" = some "investor-name") with
  | some e => forestTextStrip e.children
  | none =>
      match (locateElems doc).find? (fun e => e.classes.contains "name") with
      | some e => forestTextStrip e.children
      | none => ""

/-- `MercuryCrawler._extract_text_by_content`: the first descendant string
matching the pattern case-insensitively; return its parent's stripped text
(the whole document when the string sits at top level). -/
def _extract_text_by_content (doc : List Node) (content : String) : String :=
  match (docTextsWithParent doc).find? (fun p => strContains (pyLower p.1) (pyLower content)) with
  | some p =>
      match p.2 with
      | some cs => forestTextStrip cs
      | none => forestTextStrip doc
  | none => ""

/-- The name fallback chain of `scrape_investor_data` (a Python `or`
chain: first non-empty result wins). -/
def firstNonEmpty : List String → String
  | [] => ""
  | s :: rest => if s = "" then firstNonEmpty rest else s

/-- The extracted investor name. -/
def extractName (doc : List Node) (url : String) : String :=
  firstNonEmpty
    [extractTextH1 doc, extractTextNameSelectors doc,
     _extract_text_by_content doc "investor", _get_name_from_url url]

/-! ## The crawler: bio -/

/-- The bio fallback: `soup.find('h3', string=re.compile(r'bio', re.I))`
followed by `find_next(['p', 'div']).get_text(strip=True)`. -/
def bioFallback (doc : List Node) : String :=
  match (locateElems doc).find? (fun e =>
      e.tag = "h3" &&
        (((childString e.children).map fun s => strContains (pyLower s) "bio").getD false)) with
  | none => ""
  | some e =>
      match forestFindTag ["p", "div"] e.nextForest with
      | none => ""
      | some nxt => nodeTextStrip nxt

/-- The bio candidate text: the structured `Bio` field, else the fallback. -/
def bioCandidate (doc : List Node) : String :=
  if _extract_structured_field doc "Bio" = "" then bioFallback doc
  else _extract_structured_field doc "Bio"

/-! ## The crawler: personal-contact classification -/

/-- The four fixed personal-contact slots. -/
structure Contacts where
  email : String
  linkedin : String
  twitter : String
  website : String
deriving DecidableEq

/-- All contact slots empty. -/
def initContacts : Contacts := ⟨"", "", "", ""⟩

/-- `any(mercury_term in href for mercury_term in [...])`: is the target a
self-referential platform link? -/
def mercuryTermIn (href : String) : Bool :=
  strContains href "mercuryhq" || strContains href "mercury.com" ||
    strContains href "app.mercury"

/-- One iteration of the personal-contact loop of `scrape_investor_data`:
skip platform links, then classify by the first matching branch,
overwriting that category's slot. -/
def contactStep (c : Contacts) (a : Anchor) : Contacts :=
  if mercuryTermIn a.href then c
  else if strContains a.href "mailto:" then { c with email := stripMailto a.href }
  else if strContains a.href "linkedin.com/in/" then { c with linkedin := a.href }
  else if (strContains a.href "twitter.com" || strContains a.href "x.com") &&
      !strContains a.href "/mercury" then { c with twitter := a.href }
  else if pyStartsWith a.href "http" && !strContains a.href base_url &&
      (strContains (pyLower a.rawText) "website" ||
        strContains (pyLower a.rawText) "blog" ||
        strContains (pyLower a.rawText) "personal") then
    { c with website := a.href }
  else c

/-- The whole personal-contact loop over the anchors of the page. -/
def classifyContacts (links : List Anchor) : Contacts :=
  links.foldl contactStep initContacts

/-- The four contact categories of the classification loop. -/
inductive ContactCat where
  | email
  | linkedin
  | twitter
  | website
deriving DecidableEq

/-- The category an anchor falls into, reading the branch structure of
`contactStep`: platform links fall into no category, otherwise the first
matching branch decides. -/
def categoryOf (a : Anchor) : Option ContactCat :=
  if mercuryTermIn a.href then none
  else if strContains a.href "mailto:" then some ContactCat.email
  else if strContains a.href "linkedin.com/in/" then some ContactCat.linkedin
  else if (strContains a.href "twitter.com" || strContains a.href "x.com") &&
      !strContains a.href "/mercury" then some ContactCat.twitter
  else if pyStartsWith a.href "http" && !strContains a.href base_url &&
      (strContains (pyLower a.rawText) "website" ||
        strContains (pyLower a.rawText) "blog" ||
        strContains (pyLower a.rawText) "personal") then some ContactCat.website
  else none

/-- The value an anchor contributes to its category's slot. -/
def catValue (a : Anchor) : ContactCat → String
  | .email => stripMailto a.href
  | .linkedin => a.href
  | .twitter => a.href
  | .website => a.href

/-- Read one contact slot. -/
def getCat (c : Contacts) : ContactCat → String
  | .email => c.email
  | .linkedin => c.linkedin
  | .twitter => c.twitter
  | .website => c.website

/-- Overwrite one contact slot. -/
def setCat (c : Contacts) : ContactCat → String → Contacts
  | .email, v => { c with email := v }
  | .linkedin, v => { c with linkedin := v }
  | .twitter, v => { c with twitter := v }
  | .website, v => { c with website := v }

/-- A mailto anchor used to instantiate the overwrite scenario. -/
def mailtoJane : Anchor :=
  { href := "mailto:jane@x.com", rawText := "Email", stripText := "Email" }

/-- A second mailto anchor appearing later in the document. -/
def mailtoBob : Anchor :=
  { href := "mailto:bob@x.com", rawText := "Email", stripText := "Email" }

/-- A platform self-link that the loop must skip. -/
def mercuryAnchor : Anchor :=
  { href := "https://mercury.com/about", rawText := "About", stripText := "About" }

/-! ## The crawler: URL collector -/

/-- `MercuryCrawler.collect_investor_urls` applied to the rendered
directory markup: keep anchors whose target mentions the detail-page path
segment and is not exactly the bare directory path, resolve relative
targets against the base address, and append first occurrences only. -/
def collect_investor_urls (doc : List Node) : List String :=
  (anchorsOfForest doc).foldl
    (fun acc a =>
      if strContains a.href "/investor-database/" && a.href ≠ "/investor-database" then
        let full := if pyStartsWith a.href "/" then urljoinBase a.href else a.href
        if acc.contains full then acc else acc ++ [full]
      else acc)
    []

/-! ## The crawler: record extractor -/

/-- One scraped record (`investor_data`). -/
structure InvestorRecord where
  url : String
  name : String
  industries : List String
  stages : List String
  check_range : String
  bio : String
  geography : List String
  contacts : Contacts
  contact_info : List (String × String)
  scraped_date : String
  status : String
  error : Option String
deriving DecidableEq

/-- The record built at the top of `scrape_investor_data` before the try
block runs; `now` stands for `datetime.now().isoformat()`. -/
def defaultRecord (url now : String) : InvestorRecord :=
  { url := url, name := "", industries := [], stages := [], check_range := "",
    bio := "", geography := [], contacts := initContacts, contact_info := [],
    scraped_date := now, status := "pending", error := none }

/-- The eight field-population statements of the try block of
`scrape_investor_data`, in program order.  Each statement assigns one
record field atomically; a guard `if content:` keeps the previous value
when the located content is empty. -/
def fieldSteps (url : String) (doc : List Node) : List (InvestorRecord → InvestorRecord) :=
  [fun r => { r with name := extractName doc url },
   fun r => { r with industries := _extract_industries doc },
   fun r => { r with stages :=
                if _extract_structured_field doc "Stages" = "" then r.stages
                else _parse_list_field (_extract_structured_field doc "Stages") },
   fun r => { r with check_range :=
                if _extract_structured_field doc "Check Range" = "" then r.check_range
                else pyStrip (_extract_structured_field doc "Check Range") },
   fun r => { r with geography :=
                if _extract_structured_field doc "Geography" = "" then r.geography
                else _parse_list_field (_extract_structured_field doc "Geography") },
   fun r => { r with bio :=
                if bioCandidate doc ≠ "" ∧ 50 < (bioCandidate doc).length
                then bioCandidate doc
                else r.bio },
   fun r => { r with contacts := classifyContacts (anchorsOfForest doc) },
   fun r => { r with contact_info := _extract_contact_info doc }]

/-- Run a list of population steps over a record. -/
def runSteps (fs : List (InvestorRecord → InvestorRecord)) (r : InvestorRecord) : InvestorRecord :=
  fs.foldl (fun x f => f x) r

/-- `MercuryCrawler.scrape_investor_data`, with the try and except blocks
made explicit by a fault oracle: `none` means the try block runs to
completion and sets `status = "success"`; `some (k, msg)` means an
exception carrying message `msg` is raised after exactly `k` of the
field-population statements have completed, so the except block keeps the
populated prefix and sets `status = "error"` and the `error` field.
A fault during page loading, before any field statement, is `k = 0`. -/
def scrape_investor_data (url now : String) (doc : List Node)
    (fault : Option (Nat × String)) : InvestorRecord :=
  match fault with
  | none =>
      { runSteps (fieldSteps url doc) (defaultRecord url now) with status := "success" }
  | some (k, msg) =>
      { runSteps ((fieldSteps url doc).take k) (defaultRecord url now) with
          status := "error", error := some msg }

/-! ## The crawler: crawl driver -/

/-- The metadata block of the final result of `crawl_all_investors`. -/
structure CrawlMetadata where
  scraped_date : String
  completion_date : String
  total_investors : Nat
  successful_scrapes : Nat
  failed_scrapes : Nat
  success_rate : String
deriving DecidableEq

/-- The two shapes `crawl_all_investors` can return: the explicit
`"No URLs found"` error object, or the metadata-plus-records result. -/
inductive CrawlResult where
  | noUrls
  | completed (metadata : CrawlMetadata) (investors : List InvestorRecord)
deriving DecidableEq

/-- The f-string `f"{(successes/total*100):.1f}%"`.  The source computes
with binary floating point and formats with one decimal digit,
rounding the double to the nearest tenth (ties in the decimal conversion
resolved by the binary value, which for exact tenths is round-half-even);
modelled here by exact rational rounding to tenths with ties to even,
which agrees with the double computation away from representation ties
and at every instance evaluated in this development. -/
def formatPercent (s t : Nat) : String :=
  let num := s * 1000
  let q := num / t
  let tenths :=
    if 2 * (num % t) < t then q
    else if t < 2 * (num % t) then q + 1
    else if q % 2 = 0 then q else q + 1
  toString (tenths / 10) ++ "." ++ toString (tenths % 10) ++ "%"

/-- `MercuryCrawler.crawl_all_investors`.  The rendering collaborator is
abstracted into `pages` (markup served per address) and the per-address
fault oracle `faults` (see `scrape_investor_data`); the wall-clock reads
are collapsed into the two symbolic instants `startTime` and `now`. -/
def crawl_all_investors (directory : List Node) (pages : String → List Node)
    (faults : String → Option (Nat × String)) (startTime now : String) : CrawlResult :=
  let urls := collect_investor_urls directory
  if urls = [] then CrawlResult.noUrls
  else
    let investors := urls.map fun u => scrape_investor_data u now (pages u) (faults u)
    let s := investors.countP fun r => decide (r.status = "success")
    let f := investors.countP fun r => decide (r.status ≠ "success")
    CrawlResult.completed
      { scraped_date := startTime, completion_date := now,
        total_investors := urls.length, successful_scrapes := s,
        failed_scrapes := f, success_rate := formatPercent s urls.length }
      investors

/-- The total count a result reports, when it reports one: the `completed`
shape carries `metadata.total_investors`; the `"No URLs found"` object
carries no count at all. -/
def reportedTotal : CrawlResult → Option Nat
  | .noUrls => none
  | .completed md _ => some md.total_investors

/-- The records a result carries. -/
def resultInvestors : CrawlResult → List InvestorRecord
  | .noUrls => []
  | .completed _ invs => invs

/-! ## Definitions written from the specification, for comparison -/

/-- Modelled from the spec: the Industries / Geography link-collection
variant of spec section 4.2, applied to an arbitrary label — after
locating the labeled heading, descend into the next container element
(not the next paragraph) and collect the display text of every contained
link whose target encodes a filter parameter (carries a `=` query
parameter), deduplicated by exact text, in DOM order.  The spec claims the
geography field is produced by this procedure; the code is the authority
it is compared against. -/
def specLinksVariant (doc : List Node) (label : String) : List String :=
  match (headings9 doc).find? fun e => headingMatches e label with
  | none => []
  | some e =>
      match forestFindTag ["div"] e.nextForest with
      | none => []
      | some d =>
          (anchorsInNode d).foldl
            (fun acc a =>
              if strContains a.href "=" then
                if a.stripText ≠ "" && !acc.contains a.stripText then
                  acc ++ [a.stripText]
                else acc
              else acc)
            []

/-- Modelled from the spec: `parse_to_string`, the delimiter-joined
rendering of a parsed list referred to by the idempotence property —
joining the pieces with a comma delimiter. -/
def renderListField : List String → String
  | [] => ""
  | [x] => x
  | x :: xs => x ++ ", " ++ renderListField xs

/-! ## Concrete example documents -/

/-- Shorthand: a marker-class heading. -/
def h3c (s : String) : Node := .elem "h3" ["arcadia-heading-9"] [] [.text s]

/-- Shorthand: a paragraph with one string. -/
def para (s : String) : Node := .elem "p" [] [] [.text s]

/-- Shorthand: an anchor with a target and display text. -/
def anch (href label : String) : Node := .elem "a" [] [("href", href)] [.text label]

/-- A small directory page: a duplicate, the bare path, an absolute target
and an unrelated link. -/
def docDirExample : List Node :=
  [anch "/investor-database/jane" "Jane",
   anch "/investor-database" "Home",
   anch "https://mercury.com/investor-database/bob" "Bob",
   anch "/investor-database/jane" "Jane again",
   anch "/other" "Other"]

/-- A directory page with a single detail link. -/
def docDirSingle : List Node := [anch "/investor-database/jane" "Jane"]

/-- The directory markup of claim C10: one anchor whose target is the bare
directory path followed by a trailing slash. -/
def docTrailingSlash : List Node :=
  [anch "/investor-database/" "All investors"]

/-- A detail page whose `Geography` section is a heading followed by a
sibling paragraph, with no container of filter links anywhere. -/
def docGeographyPlain : List Node :=
  [h3c "Geography", para "New York, California"]

/-- A small but full detail page exercising every extracted field. -/
def docDetailExample : List Node :=
  [.elem "h1" [] [] [.text " Jane Doe "],
   h3c "Industries",
   .elem "div" [] []
     [anch "/investor-database?industries=Fintech" "Fintech",
      anch "/investor-database?industries=SaaS" " SaaS ",
      anch "/investor-database?industries=Fintech" "Fintech",
      anch "/about" "About"],
   h3c "Stages",
   para "Seed, Series A; Series B",
   h3c "Check Range",
   para "  10k - 50k  ",
   h3c "Geography",
   para "New York, California",
   anch "mailto:jane@x.com" "Email",
   anch "https://twitter.com/jane" "Twitter",
   anch "mailto:bob@x.com" "Email2"]

/-- A detail page whose bio candidate is short (at most 50 characters). -/
def docBioShort : List Node := [h3c "Bio", para "Investor."]

/-- A long biography text (more than 50 characters). -/
def longBioText : String :=
  "An investor biography long enough to pass the length gate of the extractor."

/-- A detail page whose bio candidate is long. -/
def docBioLong : List Node := [h3c "Bio", para longBioText]

/-! ## Collector lemmas -/

/-- The membership-preserving append step used both by the collector loop
and by plain first-seen deduplication. -/
def dedupStep (acc : List String) (x : String) : List String :=
  if acc.contains x then acc else acc ++ [x]

/-- First-seen-order deduplication of a list of addresses. -/
def dedupFirst (l : List String) : List String := l.foldl dedupStep []

/-- The candidate addresses of a directory page before deduplication: the
anchors passing the path test, resolved against the base address,
in document order. -/
def collectCands (doc : List Node) : List String :=
  ((anchorsOfForest doc).filter fun a =>
      strContains a.href "/investor-database/" && a.href ≠ "/investor-database").map
    fun a => if pyStartsWith a.href "/" then urljoinBase a.href else a.href

theorem collect_foldl_eq (anchors : List Anchor) (acc : List String) :
    anchors.foldl
      (fun acc a =>
        if strContains a.href "/investor-database/" && a.href ≠ "/investor-database" then
          let full := if pyStartsWith a.href "/" then urljoinBase a.href else a.href
          if acc.contains full then acc else acc ++ [full]
        else acc)
      acc
    = ((anchors.filter fun a =>
          strContains a.href "/investor-database/" && a.href ≠ "/investor-database").map
        fun a => if pyStartsWith a.href "/" then urljoinBase a.href else a.href).foldl
        dedupStep acc := by
  induction anchors generalizing acc with
  | nil => rfl
  | cons a rest ih =>
      rw [List.foldl_cons, List.filter_cons]
      by_cases h : (strContains a.href "/investor-database/"
          && decide (a.href ≠ "/investor-database")) = true
      · rw [if_pos h, if_pos h, List.map_cons, List.foldl_cons]
        exact ih _
      · rw [if_neg h, if_neg h]
        exact ih _

theorem collect_eq_dedup_cands (doc : List Node) :
    collect_investor_urls doc = dedupFirst (collectCands doc) := by
  unfold collect_investor_urls dedupFirst collectCands
  exact collect_foldl_eq (anchorsOfForest doc) []

theorem dedup_foldl_nodup (l : List String) (acc : List String) (h : acc.Nodup) :
    (l.foldl dedupStep acc).Nodup := by
  induction l generalizing acc with
  | nil => exact h
  | cons x rest ih =>
      rw [List.foldl_cons]
      by_cases hx : acc.contains x = true
      · rw [show dedupStep acc x = acc from by simp [dedupStep, List.elem_iff.mp hx]]
        exact ih acc h
      · have hx' : x ∉ acc := fun hmem => hx (List.elem_iff.mpr hmem)
        rw [show dedupStep acc x = acc ++ [x] from by simp [dedupStep, hx']]
        exact ih _ (by simp [List.nodup_append, h, hx'])

theorem dedup_foldl_mem (l : List String) (acc : List String) (u : String) :
    u ∈ l.foldl dedupStep acc ↔ u ∈ acc ∨ u ∈ l := by
  induction l generalizing acc with
  | nil => simp
  | cons x rest ih =>
      rw [List.foldl_cons]
      by_cases hx : acc.contains x = true
      · have hx' : x ∈ acc := List.elem_iff.mp hx
        rw [show dedupStep acc x = acc from by simp [dedupStep, hx'], ih]
        constructor
        · rintro (h | h)
          · exact Or.inl h
          · exact Or.inr (List.mem_cons_of_mem _ h)
        · rintro (h | h)
          · exact Or.inl h
          · rcases List.mem_cons.mp h with rfl | h
            · exact Or.inl hx'
            · exact Or.inr h
      · have hx' : x ∉ acc := fun hmem => hx (List.elem_iff.mpr hmem)
        rw [show dedupStep acc x = acc ++ [x] from by simp [dedupStep, hx'], ih]
        simp only [List.mem_append, List.mem_singleton, List.mem_cons]
        tauto

/-! ## Claim C4: the URL collector -/

/-- C4: for every directory markup, the collector returns exactly the
anchor targets that contain the detail-page path segment and are not the
bare directory path, resolved against the base address when relative;
first-seen order with duplicates dropped (the fold over `dedupStep`
characterizes the order), no duplicates remain, membership matches the
candidate set exactly, and an empty candidate set yields an empty result
rather than a failure. -/
theorem c4_collector_filter_dedupe_order (doc : List Node) :
    collect_investor_urls doc = dedupFirst (collectCands doc) ∧
    (collect_investor_urls doc).Nodup ∧
    (∀ u, u ∈ collect_investor_urls doc ↔ u ∈ collectCands doc) ∧
    (collectCands doc = [] → collect_investor_urls doc = []) := by
  refine ⟨collect_eq_dedup_cands doc, ?_, ?_, ?_⟩
  · rw [collect_eq_dedup_cands]
    exact dedup_foldl_nodup _ _ List.nodup_nil
  · intro u
    rw [collect_eq_dedup_cands]
    unfold dedupFirst
    rw [dedup_foldl_mem]
    simp
  · intro h
    rw [collect_eq_dedup_cands, h]
    rfl

/-- Witness for C4 on concrete directory markups, the inner implication
discharged on the empty directory. -/
theorem c4_collector_witness :
    (collect_investor_urls docDirExample).Nodup ∧
    (∀ u, u ∈ collect_investor_urls docDirExample ↔ u ∈ collectCands docDirExample) ∧
    collect_investor_urls ([] : List Node) = [] :=
  ⟨(c4_collector_filter_dedupe_order docDirExample).2.1,
   (c4_collector_filter_dedupe_order docDirExample).2.2.1,
   (c4_collector_filter_dedupe_order []).2.2.2 rfl⟩

/-! ## Claim C10: the trailing-slash quirk of the collector -/

/-- C10: the bare-path exclusion compares against the exact string
`/investor-database` only, so a directory markup whose anchor targets the
directory path with a trailing slash yields the directory page itself —
resolved to the bare directory address with trailing slash — in the
collector output. -/
theorem c10_trailing_slash_collected :
    collect_investor_urls docTrailingSlash = ["https://mercury.com/investor-database/"] ∧
    urljoinBase "/investor-database/" ∈ collect_investor_urls docTrailingSlash :=
  ⟨rfl, by decide⟩

/-! ## List-parser lemmas (claim C7) -/

theorem splitDelims_ne_nil (l : List Char) : splitDelims l ≠ [] := by
  cases l with
  | nil => simp [splitDelims]
  | cons c cs =>
      unfold splitDelims
      by_cases h : isDelim c = true
      · simp [h]
      · rcases hs : splitDelims cs with _ | ⟨p, ps⟩
        · simp [h, hs]
        · simp [h, hs]

theorem splitDelims_no_delim (l : List Char) :
    ∀ q ∈ splitDelims l, ∀ c ∈ q, isDelim c = false := by
  induction l with
  | nil =>
      intro q hq c hc
      simp [splitDelims] at hq
      subst hq
      simp at hc
  | cons c0 cs ih =>
      intro q hq c hc
      unfold splitDelims at hq
      by_cases h : isDelim c0 = true
      · rw [if_pos h] at hq
        rcases List.mem_cons.mp hq with rfl | hq
        · simp at hc
        · exact ih q hq c hc
      · rw [if_neg h] at hq
        rcases hs : splitDelims cs with _ | ⟨p, ps⟩
        · exact absurd hs (splitDelims_ne_nil cs)
        · rw [hs] at hq
          rcases List.mem_cons.mp hq with rfl | hq
          · rcases List.mem_cons.mp hc with rfl | hc
            · simpa using h
            · exact ih p (hs ▸ List.mem_cons_self p ps) c hc
          · exact ih q (hs ▸ List.mem_cons_of_mem p hq) c hc

theorem splitDelims_append_delim (a : List Char) (s : List Char)
    (ha : ∀ c ∈ a, isDelim c = false) :
    splitDelims (a ++ ',' :: s) = a :: splitDelims s := by
  induction a with
  | nil => simp [splitDelims, isDelim]
  | cons c a' ih =>
      have hc : isDelim c = false := ha c (List.mem_cons_self c a')
      have ha' : ∀ d ∈ a', isDelim d = false := fun d hd => ha d (List.mem_cons_of_mem c hd)
      rw [List.cons_append]
      conv_lhs => rw [splitDelims]
      rw [if_neg (by simp [hc]), ih ha']

theorem splitDelims_no_delim_eq (a : List Char) (ha : ∀ c ∈ a, isDelim c = false) :
    splitDelims a = [a] := by
  induction a with
  | nil => rfl
  | cons c a' ih =>
      have hc : isDelim c = false := ha c (List.mem_cons_self c a')
      conv_lhs => rw [splitDelims]
      rw [if_neg (by simp [hc]), ih (fun d hd => ha d (List.mem_cons_of_mem c hd))]

theorem splitDelims_space_cons (s : List Char) (p : List Char) (ps : List (List Char))
    (h : splitDelims s = p :: ps) :
    splitDelims (' ' :: s) = (' ' :: p) :: ps := by
  conv_lhs => rw [splitDelims]
  rw [if_neg (by decide), h]

theorem pyStripChars_space_cons (l : List Char) :
    pyStripChars (' ' :: l) = pyStripChars l := by
  simp [pyStripChars, List.dropWhile_cons, pySpace]

theorem dropWhile_head_not (p : Char → Bool) (l : List Char) (a : Char) (t : List Char)
    (h : l.dropWhile p = a :: t) : p a = false := by
  induction l with
  | nil => simp [List.dropWhile] at h
  | cons c cs ih =>
      rw [List.dropWhile_cons] at h
      by_cases hc : p c = true
      · rw [if_pos hc] at h
        exact ih h
      · rw [if_neg hc] at h
        injection h with h1 h2
        subst h1
        simpa using hc

theorem getLast?_of_suffix {B X : List Char} {a : Char} (h : B <:+ X)
    (ha : B.getLast? = some a) : X.getLast? = some a := by
  obtain ⟨u, rfl⟩ := h
  have hBne : B ≠ [] := by
    intro h0
    rw [h0] at ha
    simp at ha
  rw [List.getLast?_append_of_ne_nil u hBne]
  exact ha

theorem pyStripChars_head (l : List Char) (a : Char)
    (h : (pyStripChars l).head? = some a) : pySpace a = false := by
  unfold pyStripChars at h
  rw [List.head?_reverse] at h
  have h2 : (l.dropWhile pySpace).reverse.getLast? = some a :=
    getLast?_of_suffix (List.dropWhile_suffix pySpace) h
  rw [List.getLast?_reverse] at h2
  cases hd : l.dropWhile pySpace with
  | nil => rw [hd] at h2; simp at h2
  | cons x xs =>
      rw [hd] at h2
      simp at h2
      subst h2
      exact dropWhile_head_not pySpace l x xs hd

theorem pyStripChars_last (l : List Char) (a : Char)
    (h : (pyStripChars l).getLast? = some a) : pySpace a = false := by
  unfold pyStripChars at h
  rw [List.getLast?_reverse] at h
  cases hd : (l.dropWhile pySpace).reverse.dropWhile pySpace with
  | nil => rw [hd] at h; simp at h
  | cons x xs =>
      rw [hd] at h
      simp at h
      subst h
      exact dropWhile_head_not pySpace _ x xs hd

theorem pyStripChars_of_clean (m : List Char)
    (h1 : ∀ a, m.head? = some a → pySpace a = false)
    (h2 : ∀ a, m.getLast? = some a → pySpace a = false) :
    pyStripChars m = m := by
  have hd : m.dropWhile pySpace = m := by
    cases m with
    | nil => rfl
    | cons x xs => simp [List.dropWhile_cons, h1 x rfl]
  have hrev : m.reverse.dropWhile pySpace = m.reverse := by
    cases hm : m.reverse with
    | nil => rfl
    | cons x xs =>
        have hx : m.getLast? = some x := by
          rw [← List.head?_reverse, hm]
          rfl
        rw [List.dropWhile_cons]
        simp [h2 x hx]
  unfold pyStripChars
  rw [hd, hrev, List.reverse_reverse]

theorem pyStripChars_idem (l : List Char) :
    pyStripChars (pyStripChars l) = pyStripChars l :=
  pyStripChars_of_clean (pyStripChars l)
    (pyStripChars_head l) (pyStripChars_last l)

theorem mem_of_mem_pyStripChars {c : Char} {l : List Char}
    (h : c ∈ pyStripChars l) : c ∈ l := by
  unfold pyStripChars at h
  rw [List.mem_reverse] at h
  have h2 := (List.dropWhile_suffix pySpace).subset h
  rw [List.mem_reverse] at h2
  exact (List.dropWhile_suffix pySpace).subset h2

theorem parse_mem_props (x : String) (s : String) (hs : s ∈ _parse_list_field x) :
    (∀ c ∈ s.data, isDelim c = false) ∧ pyStripChars s.data = s.data ∧ 1 < s.data.length := by
  unfold _parse_list_field at hs
  by_cases hx : x = ""
  · rw [if_pos hx] at hs
    simp at hs
  · rw [if_neg hx] at hs
    rcases List.mem_map.mp hs with ⟨p, hp, rfl⟩
    rcases List.mem_filter.mp hp with ⟨hp1, hp2⟩
    rcases List.mem_map.mp hp1 with ⟨q, hq, rfl⟩
    have hlen : pyStripChars q ≠ [] ∧ 1 < (pyStripChars q).length := by
      simpa using hp2
    refine ⟨?_, ?_, ?_⟩
    · intro c hc
      exact splitDelims_no_delim x.data q hq c (mem_of_mem_pyStripChars hc)
    · exact pyStripChars_idem q
    · exact hlen.2

theorem renderListField_data_cons (y : String) (ys : List String) :
    ∃ rest, (renderListField (y :: ys)).data = y.data ++ rest := by
  cases ys with
  | nil => exact ⟨[], by simp [renderListField]⟩
  | cons z zs =>
      refine ⟨',' :: ' ' :: (renderListField (z :: zs)).data, ?_⟩
      show (y ++ ", " ++ renderListField (z :: zs)).data = _
      simp [List.append_assoc]

theorem render_split (y : String) (ys : List String)
    (h : ∀ s ∈ y :: ys, ∀ c ∈ s.data, isDelim c = false) :
    splitDelims (renderListField (y :: ys)).data
      = y.data :: ys.map (fun s => ' ' :: s.data) := by
  induction ys generalizing y with
  | nil =>
      show splitDelims y.data = [y.data]
      exact splitDelims_no_delim_eq y.data (h y (List.mem_cons_self y []))
  | cons z zs ih =>
      have hy : ∀ c ∈ y.data, isDelim c = false := h y (List.mem_cons_self _ _)
      have hrest : ∀ s ∈ z :: zs, ∀ c ∈ s.data, isDelim c = false :=
        fun s hs => h s (List.mem_cons_of_mem _ hs)
      have hdata : (renderListField (y :: z :: zs)).data
          = y.data ++ ',' :: ' ' :: (renderListField (z :: zs)).data := by
        show (y ++ ", " ++ renderListField (z :: zs)).data = _
        simp [List.append_assoc]
      rw [hdata, splitDelims_append_delim y.data _ hy]
      rw [splitDelims_space_cons _ _ _ (ih z hrest)]
      rfl

theorem parse_pieces (y : String) (ys : List String)
    (hall : ∀ s ∈ y :: ys, pyStripChars s.data = s.data ∧ 1 < s.data.length) :
    (((y.data :: ys.map fun s => ' ' :: s.data).map pyStripChars).filter
        (fun p => decide (p ≠ []) && decide (1 < p.length))).map String.mk = y :: ys := by
  induction ys generalizing y with
  | nil =>
      obtain ⟨hy1, hy2⟩ := hall y (List.mem_cons_self _ _)
      have hyne : y.data ≠ [] := by
        intro h0
        rw [h0] at hy2
        simp at hy2
      rw [List.map_cons, hy1, List.filter_cons,
        if_pos (by simp only [Bool.and_eq_true, decide_eq_true_eq]; exact ⟨hyne, hy2⟩)]
      rfl
  | cons z zs ih =>
      obtain ⟨hy1, hy2⟩ := hall y (List.mem_cons_self _ _)
      have hyne : y.data ≠ [] := by
        intro h0
        rw [h0] at hy2
        simp at hy2
      have htail := ih z (fun s hs => hall s (List.mem_cons_of_mem _ hs))
      have hz : pyStripChars (' ' :: z.data)
          = pyStripChars z.data := pyStripChars_space_cons z.data
      rw [List.map_cons, hy1, List.filter_cons,
        if_pos (by simp only [Bool.and_eq_true, decide_eq_true_eq]; exact ⟨hyne, hy2⟩),
        List.map_cons]
      rw [show List.map (fun s => ' ' :: s.data) (z :: zs)
            = (' ' :: z.data) :: List.map (fun s => ' ' :: s.data) zs from rfl]
      rw [List.map_cons pyStripChars, hz,
        ← List.map_cons pyStripChars z.data (List.map (fun s => ' ' :: s.data) zs)]
      rw [htail]

theorem parse_renderListField_eq (y : String) (ys : List String)
    (hprops : ∀ s ∈ y :: ys,
      (∀ c ∈ s.data, isDelim c = false) ∧ pyStripChars s.data = s.data ∧ 1 < s.data.length) :
    _parse_list_field (renderListField (y :: ys)) = y :: ys := by
  have hy2 : 1 < y.data.length := (hprops y (List.mem_cons_self _ _)).2.2
  have hyne : y.data ≠ [] := by
    intro h0
    rw [h0] at hy2
    simp at hy2
  have hrne : renderListField (y :: ys) ≠ "" := by
    intro h0
    obtain ⟨rest, hr⟩ := renderListField_data_cons y ys
    rw [h0] at hr
    rcases List.append_eq_nil.mp hr.symm with ⟨h1, _⟩
    exact hyne h1
  unfold _parse_list_field
  rw [if_neg hrne, render_split y ys (fun s hs => (hprops s hs).1)]
  exact parse_pieces y ys (fun s hs => ⟨(hprops s hs).2.1, (hprops s hs).2.2⟩)

/-! ## Claim C7: list-parser idempotence -/

/-- C7: the list parser is idempotent on already-clean input — parsing the
delimiter-joined rendering of a parsed list returns the parsed list
unchanged, for every input string. -/
theorem c7_parse_list_field_idempotent (x : String) :
    _parse_list_field (renderListField (_parse_list_field x)) = _parse_list_field x := by
  cases hi : _parse_list_field x with
  | nil => rfl
  | cons y ys =>
      rw [parse_renderListField_eq y ys (fun s hs => parse_mem_props x s (hi ▸ hs))]

/-! ## Claim C8: the bio length gate -/

/-- C8: the bio field is the empty string whenever the candidate text has
at most 50 characters, and a non-empty bio stores a text longer than 50
characters. -/
theorem c8_bio_length_gate (url now : String) (doc : List Node) :
    ((bioCandidate doc).length ≤ 50 →
      (scrape_investor_data url now doc none).bio = "") ∧
    ((scrape_investor_data url now doc none).bio ≠ "" →
      50 < (scrape_investor_data url now doc none).bio.length) := by
  have hb : (scrape_investor_data url now doc none).bio
      = if bioCandidate doc ≠ "" ∧ 50 < (bioCandidate doc).length
        then bioCandidate doc else "" := rfl
  constructor
  · intro h
    rw [hb, if_neg]
    rintro ⟨_, h2⟩
    exact absurd h2 (not_lt.mpr h)
  · intro hne
    rw [hb] at hne ⊢
    by_cases hc : bioCandidate doc ≠ "" ∧ 50 < (bioCandidate doc).length
    · rw [if_pos hc]
      exact hc.2
    · rw [if_neg hc] at hne
      exact absurd rfl hne

/-- Witness for C8, on a short-bio page and a long-bio page. -/
theorem c8_bio_witness :
    (bioCandidate docBioShort).length ≤ 50 ∧
    (scrape_investor_data "u" "t" docBioShort none).bio = "" ∧
    (scrape_investor_data "u" "t" docBioLong none).bio ≠ "" ∧
    50 < (scrape_investor_data "u" "t" docBioLong none).bio.length :=
  ⟨by decide, (c8_bio_length_gate "u" "t" docBioShort).1 (by decide),
   by decide, (c8_bio_length_gate "u" "t" docBioLong).2 (by decide)⟩

/-! ## Claim C9: the address field is the given address -/

/-- C9: for every address, timestamp, markup and fault, the extracted
record's address field equals the given address exactly — it is set at
record creation and no later statement touches it, faulting or not. -/
theorem c9_record_url_immutable (url now : String) (doc : List Node)
    (fault : Option (Nat × String)) :
    (scrape_investor_data url now doc fault).url = url := by
  cases fault with
  | none => rfl
  | some kmsg =>
      obtain ⟨k, msg⟩ := kmsg
      rcases Nat.lt_or_ge k 9 with hk | hk
      · interval_cases k <;> rfl
      · have htake : (fieldSteps url doc).take k = fieldSteps url doc :=
          List.take_of_length_le (by simp [fieldSteps]; omega)
        simp only [scrape_investor_data, htake]
        rfl

/-! ## Claim C3: fault handling in the record extractor -/

/-- C3: a fault after `k` completed field statements yields status `error`
with the fault message stored verbatim, every field populated before the
fault keeping its no-fault value; normal completion yields status
`success`; for every fault oracle the final status is `success` or `error`
(never `pending`) and the error field is present exactly when the status
is `error`. -/
theorem c3_fault_status_and_no_rollback (url now : String) (doc : List Node)
    (k : Nat) (msg : String) (fault : Option (Nat × String)) :
    (scrape_investor_data url now doc none).status = "success" ∧
    (scrape_investor_data url now doc none).error = none ∧
    (scrape_investor_data url now doc (some (k, msg))).status = "error" ∧
    (scrape_investor_data url now doc (some (k, msg))).error = some msg ∧
    ((scrape_investor_data url now doc fault).status = "success" ∨
      (scrape_investor_data url now doc fault).status = "error") ∧
    (scrape_investor_data url now doc fault).status ≠ "pending" ∧
    ((scrape_investor_data url now doc fault).error ≠ none ↔
      (scrape_investor_data url now doc fault).status = "error") ∧
    (1 ≤ k → (scrape_investor_data url now doc (some (k, msg))).name
        = (scrape_investor_data url now doc none).name) ∧
    (2 ≤ k → (scrape_investor_data url now doc (some (k, msg))).industries
        = (scrape_investor_data url now doc none).industries) ∧
    (3 ≤ k → (scrape_investor_data url now doc (some (k, msg))).stages
        = (scrape_investor_data url now doc none).stages) ∧
    (4 ≤ k → (scrape_investor_data url now doc (some (k, msg))).check_range
        = (scrape_investor_data url now doc none).check_range) ∧
    (5 ≤ k → (scrape_investor_data url now doc (some (k, msg))).geography
        = (scrape_investor_data url now doc none).geography) ∧
    (6 ≤ k → (scrape_investor_data url now doc (some (k, msg))).bio
        = (scrape_investor_data url now doc none).bio) ∧
    (7 ≤ k → (scrape_investor_data url now doc (some (k, msg))).contacts
        = (scrape_investor_data url now doc none).contacts) ∧
    (8 ≤ k → (scrape_investor_data url now doc (some (k, msg))).contact_info
        = (scrape_investor_data url now doc none).contact_info) := by
  have htake : 9 ≤ k → (fieldSteps url doc).take k = fieldSteps url doc :=
    fun h9 => List.take_of_length_le (by simp [fieldSteps]; omega)
  refine ⟨rfl, rfl, rfl, rfl, ?_, ?_, ?_, ?_, ?_, ?_, ?_, ?_, ?_, ?_, ?_⟩
  · cases fault with
    | none => exact Or.inl rfl
    | some p =>
        obtain ⟨k1, m1⟩ := p
        exact Or.inr rfl
  · cases fault with
    | none => show ("success" : String) ≠ "pending"; decide
    | some p =>
        obtain ⟨k1, m1⟩ := p
        show ("error" : String) ≠ "pending"
        decide
  · cases fault with
    | none =>
        show (none : Option String) ≠ none ↔ ("success" : String) = "error"
        simp
    | some p =>
        obtain ⟨k1, m1⟩ := p
        show (some m1 : Option String) ≠ none ↔ ("error" : String) = "error"
        simp
  all_goals intro hk
  all_goals rcases Nat.lt_or_ge k 9 with h9 | h9
  all_goals first
    | (interval_cases k <;> first | omega | rfl)
    | (simp only [scrape_investor_data, htake h9]; try rfl)

/-- Witness for C3 at a fault after all eight statements of a concrete
page: the error status, the verbatim message, and each preserved field. -/
theorem c3_fault_witness :
    (scrape_investor_data "u" "t" docDetailExample (some (8, "boom"))).status = "error" ∧
    (scrape_investor_data "u" "t" docDetailExample (some (8, "boom"))).error = some "boom" ∧
    ((scrape_investor_data "u" "t" docDetailExample (some (8, "boom"))).error ≠ none ↔
      (scrape_investor_data "u" "t" docDetailExample (some (8, "boom"))).status = "error") ∧
    (scrape_investor_data "u" "t" docDetailExample (some (8, "boom"))).name
      = (scrape_investor_data "u" "t" docDetailExample none).name ∧
    (scrape_investor_data "u" "t" docDetailExample (some (8, "boom"))).industries
      = (scrape_investor_data "u" "t" docDetailExample none).industries ∧
    (scrape_investor_data "u" "t" docDetailExample (some (8, "boom"))).stages
      = (scrape_investor_data "u" "t" docDetailExample none).stages ∧
    (scrape_investor_data "u" "t" docDetailExample (some (8, "boom"))).check_range
      = (scrape_investor_data "u" "t" docDetailExample none).check_range ∧
    (scrape_investor_data "u" "t" docDetailExample (some (8, "boom"))).geography
      = (scrape_investor_data "u" "t" docDetailExample none).geography ∧
    (scrape_investor_data "u" "t" docDetailExample (some (8, "boom"))).bio
      = (scrape_investor_data "u" "t" docDetailExample none).bio ∧
    (scrape_investor_data "u" "t" docDetailExample (some (8, "boom"))).contacts
      = (scrape_investor_data "u" "t" docDetailExample none).contacts ∧
    (scrape_investor_data "u" "t" docDetailExample (some (8, "boom"))).contact_info
      = (scrape_investor_data "u" "t" docDetailExample none).contact_info := by
  obtain ⟨-, -, h3, h4, -, -, h7, h8, h9, h10, h11, h12, h13, h14, h15⟩ :=
    c3_fault_status_and_no_rollback "u" "t" docDetailExample 8 "boom" (some (8, "boom"))
  exact ⟨h3, h4, h7, h8 (by decide), h9 (by decide), h10 (by decide), h11 (by decide),
    h12 (by decide), h13 (by decide), h14 (by decide), h15 (by decide)⟩

/-! ## Claim C1: how the geography field is extracted -/

/-- C1 (counterexample): on a page whose `Geography` section is a heading
followed by a sibling paragraph, the extractor returns the parsed
paragraph, while the industries-style link-collection procedure of the
spec returns nothing — so geography is not extracted by the same procedure
as industries. -/
theorem c1_geography_counterexample :
    (scrape_investor_data "u" "t" docGeographyPlain none).geography
      ≠ specLinksVariant docGeographyPlain "Geography" := by decide

/-- C1 (amended): geography is extracted by the labeled-section locator
(next sibling paragraph, else forward paragraph scan from the heading's
parent) followed by the delimiter list parser — not by the industries
link-collection variant. -/
theorem c1_geography_structured_field (url now : String) (doc : List Node) :
    (scrape_investor_data url now doc none).geography
      = _parse_list_field (_extract_structured_field doc "Geography") := by
  have hg : (scrape_investor_data url now doc none).geography
      = if _extract_structured_field doc "Geography" = "" then ([] : List String)
        else _parse_list_field (_extract_structured_field doc "Geography") := rfl
  rw [hg]
  by_cases h : _extract_structured_field doc "Geography" = ""
  · rw [if_pos h, h]
    rfl
  · rw [if_neg h]

/-! ## Claim C6: contact classification -/

theorem contactStep_eq_category (c : Contacts) (a : Anchor) :
    contactStep c a
      = match categoryOf a with
        | none => c
        | some cat => setCat c cat (catValue a cat) := by
  unfold contactStep categoryOf
  split_ifs <;> rfl

theorem getCat_contactStep_ne (c : Contacts) (b : Anchor) (cat : ContactCat)
    (h : categoryOf b ≠ some cat) : getCat (contactStep c b) cat = getCat c cat := by
  rw [contactStep_eq_category]
  cases hb : categoryOf b with
  | none => rfl
  | some cat1 =>
      have hne : cat1 ≠ cat := fun h0 => h (by rw [hb, h0])
      cases cat1 <;> cases cat <;> first | exact absurd rfl hne | rfl

theorem getCat_contactStep_self (c : Contacts) (a : Anchor) (cat : ContactCat)
    (h : categoryOf a = some cat) : getCat (contactStep c a) cat = catValue a cat := by
  rw [contactStep_eq_category, h]
  cases cat <;> rfl

theorem getCat_foldl_of_no_cat (ys : List Anchor) (c : Contacts) (cat : ContactCat)
    (h : ∀ b ∈ ys, categoryOf b ≠ some cat) :
    getCat (ys.foldl contactStep c) cat = getCat c cat := by
  induction ys generalizing c with
  | nil => rfl
  | cons b rest ih =>
      rw [List.foldl_cons]
      rw [ih _ (fun b1 hb1 => h b1 (List.mem_cons_of_mem _ hb1))]
      exact getCat_contactStep_ne c b cat (h b (List.mem_cons_self _ _))

/-- C6: every anchor whose target contains a platform domain is skipped
(the loop step is the identity on it), and within each category the
last-matching anchor in document order is kept: if anchor `a` falls into a
category and no later anchor falls into the same category, the final slot
holds the value of `a`, whatever came before. -/
theorem c6_contacts_skip_and_last_match (url now : String) (doc : List Node)
    (c : Contacts) (m a : Anchor) (xs ys : List Anchor) (cat : ContactCat) :
    (scrape_investor_data url now doc none).contacts
        = classifyContacts (anchorsOfForest doc) ∧
    (mercuryTermIn m.href = true → contactStep c m = c) ∧
    (categoryOf a = some cat → (∀ b ∈ ys, categoryOf b ≠ some cat) →
      getCat (classifyContacts (xs ++ a :: ys)) cat = catValue a cat) := by
  refine ⟨rfl, ?_, ?_⟩
  · intro hm
    unfold contactStep
    rw [if_pos hm]
  · intro ha hys
    unfold classifyContacts
    rw [List.foldl_append, List.foldl_cons]
    rw [getCat_foldl_of_no_cat ys _ cat hys]
    exact getCat_contactStep_self _ a cat ha

/-- Witness for C6: the platform link is skipped, and with two mailto
anchors the later one ends up in the email slot. -/
theorem c6_contacts_witness :
    contactStep initContacts mercuryAnchor = initContacts ∧
    getCat (classifyContacts ([mailtoJane] ++ mailtoBob :: [])) ContactCat.email
      = "bob@x.com" := by
  have h := c6_contacts_skip_and_last_match "u" "t" [] initContacts mercuryAnchor
    mailtoBob [mailtoJane] [] ContactCat.email
  refine ⟨h.2.1 (by decide), ?_⟩
  rw [h.2.2 (by decide) (fun b hb => absurd hb (List.not_mem_nil b))]
  decide

/-! ## Claim C2: the empty-terminal result of the driver -/

/-- C2 (counterexample): with a directory yielding zero addresses the
driver result is the bare `"No URLs found"` object, which reports no total
count — in particular it does not report `total = 0`. -/
theorem c2_empty_reports_no_total :
    reportedTotal (crawl_all_investors [] (fun _ => []) (fun _ => none) "s" "e")
      ≠ some 0 := by decide

/-- C2 (amended): when the collector yields zero addresses the driver
returns the explicit no-URLs terminal result, carrying no records (no
extraction attempted) and no total count; the success-rate computation is
never reached, so no division by zero occurs. -/
theorem c2_empty_terminal (directory : List Node) (pages : String → List Node)
    (faults : String → Option (Nat × String)) (st et : String)
    (h : collect_investor_urls directory = []) :
    crawl_all_investors directory pages faults st et = CrawlResult.noUrls ∧
    resultInvestors (crawl_all_investors directory pages faults st et) = [] ∧
    reportedTotal (crawl_all_investors directory pages faults st et) = none := by
  have hc : crawl_all_investors directory pages faults st et = CrawlResult.noUrls := by
    simp only [crawl_all_investors, h]
    simp
  exact ⟨hc, by rw [hc]; rfl, by rw [hc]; rfl⟩

/-- Witness for C2 on the empty directory markup. -/
theorem c2_empty_witness :
    crawl_all_investors [] (fun _ => []) (fun _ => none) "s" "e" = CrawlResult.noUrls ∧
    resultInvestors (crawl_all_investors [] (fun _ => []) (fun _ => none) "s" "e") = [] ∧
    reportedTotal (crawl_all_investors [] (fun _ => []) (fun _ => none) "s" "e") = none :=
  c2_empty_terminal [] (fun _ => []) (fun _ => none) "s" "e" rfl

/-! ## Claim C5: driver totals and success-rate formatting -/

theorem countP_status_split (l : List InvestorRecord) :
    l.countP (fun r => decide (r.status = "success"))
      + l.countP (fun r => decide (r.status ≠ "success")) = l.length := by
  simp only [ne_eq, decide_not]
  induction l with
  | nil => rfl
  | cons r rest ih =>
      simp only [List.countP_cons, List.length_cons]
      by_cases h : r.status = "success"
      · simp [h]
        omega
      · simp [h]
        omega

/-- C5: with at least one collected address the driver returns the
completed result whose metadata reports total equal to the number of
collected addresses, one record appended per address, successes plus
failures equal to the total, and the success rate formatted from
successes and total — with `7` of `9` formatting to `"77.8%"`. -/
theorem c5_driver_totals (directory : List Node) (pages : String → List Node)
    (faults : String → Option (Nat × String)) (st et : String)
    (h : ¬collect_investor_urls directory = []) :
    ∃ md investors,
      crawl_all_investors directory pages faults st et
        = CrawlResult.completed md investors ∧
      md.total_investors = (collect_investor_urls directory).length ∧
      investors.length = md.total_investors ∧
      md.successful_scrapes + md.failed_scrapes = md.total_investors ∧
      md.success_rate = formatPercent md.successful_scrapes md.total_investors ∧
      formatPercent 7 9 = "77.8%" := by
  simp only [crawl_all_investors]
  rw [if_neg h]
  refine ⟨_, _, rfl, rfl, ?_, ?_, rfl, rfl⟩
  · exact List.length_map _ _
  · have hsplit := countP_status_split
      (List.map (fun u => scrape_investor_data u et (pages u) (faults u))
        (collect_investor_urls directory))
    rw [List.length_map] at hsplit
    exact hsplit

/-- Witness for C5 on a one-link directory. -/
theorem c5_driver_witness :
    ∃ md investors,
      crawl_all_investors docDirSingle (fun _ => []) (fun _ => none) "s" "e"
        = CrawlResult.completed md investors ∧
      md.total_investors = (collect_investor_urls docDirSingle).length ∧
      investors.length = md.total_investors ∧
      md.successful_scrapes + md.failed_scrapes = md.total_investors ∧
      md.success_rate = formatPercent md.successful_scrapes md.total_investors ∧
      formatPercent 7 9 = "77.8%" :=
  c5_driver_totals docDirSingle (fun _ => []) (fun _ => none) "s" "e" (by decide)

end Mercury
